import Mathlib

/-!
Shallow embedding of the classification pipeline of the secure-openai-proxy
repository (source files: src/server.js, src/mapper_strict.js,
src/unnamed/part_000, src/unnamed/part_001), together with theorems settling
claims C1-C10 about the natural-language specification of this repository.

JavaScript values that the untrusted model output can take are embedded as the
inductive type `JVal`; JS numbers are embedded as `JSNum` (a rational or NaN),
since `Math.max`/`Math.min` propagate NaN and every comparison with NaN is
false.  String operations (`trim`, `toLowerCase`, `slice`, `split`) are
re-implemented over `String.data` so that every definition evaluates inside the
kernel; they agree with the JavaScript operations on ASCII data (full Unicode
case mapping and UTF-16 index arithmetic are not modelled, none of the claims
depends on them).  `JSON.parse` is not re-implemented: the functions that call
it (`tryParseJSON` in src/mapper_strict.js) take the parser as an explicit
argument `parse : String → Option JVal`, `none` standing for a thrown
`SyntaxError`, and theorems quantify over it.
-/

/-! ## JS numbers: a rational or NaN -/

inductive JSNum where
  | nan
  | num (q : ℚ)
deriving DecidableEq

/-- JS `Math.min`: returns NaN when either argument is NaN. -/
def jsMin : JSNum → JSNum → JSNum
  | .nan, _ => .nan
  | _, .nan => .nan
  | .num a, .num b => .num (min a b)

/-- JS `Math.max`: returns NaN when either argument is NaN. -/
def jsMax : JSNum → JSNum → JSNum
  | .nan, _ => .nan
  | _, .nan => .nan
  | .num a, .num b => .num (max a b)

/-- JS `x >= q` for a number `x`: false when `x` is NaN. -/
def jsGe : JSNum → ℚ → Bool
  | .nan, _ => false
  | .num x, q => decide (q ≤ x)

/-- The predicate "this JS number is a real number lying in [0,1]" (NaN is not). -/
def inRange01 : JSNum → Prop
  | .nan => False
  | .num q => 0 ≤ q ∧ q ≤ 1

instance : DecidablePred inRange01 := fun n =>
  match n with
  | .nan => isFalse (fun h => h)
  | .num _ => instDecidableAnd

/-! ## JS values (parsed JSON plus `undefined` via `Option`) -/

inductive JVal where
  | vnull
  | vbool (b : Bool)
  | vnum (n : JSNum)
  | vstr (s : String)
  | varr (elems : List JVal)
  | vobj (fields : List (String × JVal))

/-- First-match association lookup (JS objects produced by `JSON.parse` have
unique keys, so first match and last match coincide). -/
def assocLookup {β : Type} (k : String) : List (String × β) → Option β
  | [] => none
  | (k', v) :: rest => if k' = k then some v else assocLookup k rest

/-- JS property access `obj.k` / `obj?.[k]`: `none` is `undefined`. -/
def JVal.getField : JVal → String → Option JVal
  | .vobj fs, k => assocLookup k fs
  | _, _ => none

/-- JS truthiness. -/
def jsTruthy : JVal → Bool
  | .vnull => false
  | .vbool b => b
  | .vnum .nan => false
  | .vnum (.num q) => decide (q ≠ 0)
  | .vstr s => decide (s ≠ "")
  | .varr _ => true
  | .vobj _ => true

/-- JS `typeof v === 'object'` (true for null, arrays and plain objects). -/
def jsTypeofObject : JVal → Bool
  | .vnull => true
  | .varr _ => true
  | .vobj _ => true
  | _ => false

/-- A truthy value of type 'object', i.e. an array or a plain object: exactly
the values passing the guard `obj && typeof obj === 'object'`. -/
def isObjLike : JVal → Bool
  | .varr _ => true
  | .vobj _ => true
  | _ => false

/-- JS `x ?? null` applied to a property access result: `undefined` and `null`
both become `null`, anything else is kept. -/
def coalesceNull : Option JVal → JVal
  | none => .vnull
  | some .vnull => .vnull
  | some v => v

/-! ## String operations (ASCII-faithful re-implementations over `data`) -/

/-- JS `String.prototype.toLowerCase` (ASCII range; Unicode case mapping not
modelled). -/
def jsLower (s : String) : String := String.mk (s.data.map Char.toLower)

def trimCharList (l : List Char) : List Char :=
  ((l.dropWhile Char.isWhitespace).reverse.dropWhile Char.isWhitespace).reverse

/-- JS `String.prototype.trim`. -/
def jsTrim (s : String) : String := String.mk (trimCharList s.data)

/-- JS `s.trim().split(/\s+/)[0]`: the first whitespace-delimited token. -/
def firstToken (s : String) : String :=
  String.mk ((jsTrim s).data.takeWhile (fun c => !c.isWhitespace))

/-- JS `s.slice(0, n)` (code-point based; UTF-16 surrogate pairs not modelled). -/
def jsSlice (s : String) (n : ℕ) : String := String.mk (s.data.take n)

def splitNlAux : List Char → List Char → List String
  | [], acc => [String.mk acc.reverse]
  | c :: rest, acc =>
    if c = '\n' then String.mk acc.reverse :: splitNlAux rest []
    else splitNlAux rest (c :: acc)

/-- src/unnamed/part_000 line 159:
`const splitLines = text => String(text || '').split(/\r?\n/).map(s => s.trim()).filter(Boolean);`
(a carriage return left before a line feed is removed by the subsequent trim,
so splitting on the line feed alone yields the same list). -/
def splitLines (text : String) : List String :=
  ((splitNlAux text.data []).map jsTrim).filter (fun s => decide (s ≠ ""))

/-! ## Result Sanitizer (src/unnamed/part_000, `sanitizeSingle`, lines 139-157) -/

structure SanOut where
  category : String
  subcategory : Option String
  confidence : JSNum
  reason : String
  suggestedNewCategory : Option String
  suggestedNewSubcategory : Option String
  alternativeCategory : Option String
deriving DecidableEq

/-- The all-defaults record `out` initialised at the top of `sanitizeSingle`. -/
def sanDefault : SanOut :=
  ⟨"Other", none, .num 0, "", none, none, none⟩

/-- src/unnamed/part_000 lines 139-157, `sanitizeSingle(obj, categories, subcatsByCat)`.
`subcats` models `subcatsByCat` as an association list (absent map = `[]`,
both make `subcatsByCat?.[out.category]` fail to produce an array). -/
def sanitizeSingle (obj : JVal) (categories : List String)
    (subcats : List (String × List String)) : SanOut :=
  if !isObjLike obj then sanDefault
  else
    let cat : String :=
      match obj.getField "category" with
      | some (.vstr s) => if s ∈ categories then s else "Other"
      | _ => "Other"
    let conf : JSNum :=
      match obj.getField "confidence" with
      | some (.vnum n) => jsMax (.num 0) (jsMin (.num 1) n)
      | _ => .num 0
    let reason : String :=
      match obj.getField "reason" with
      | some (.vstr s) => jsSlice s 280
      | _ => ""
    let sNC : Option String :=
      match obj.getField "suggestedNewCategory" with
      | some (.vstr s) => if jsTrim s ≠ "" then some (firstToken s) else none
      | _ => none
    let sNS : Option String :=
      match obj.getField "suggestedNewSubcategory" with
      | some (.vstr s) => if jsTrim s ≠ "" then some (firstToken s) else none
      | _ => none
    let altCat : Option String :=
      match obj.getField "alternativeCategory" with
      | some (.vstr s) => if s ∈ categories ∧ s ≠ cat then some s else none
      | _ => none
    let sub : Option String :=
      match assocLookup cat subcats, obj.getField "subcategory" with
      | some subs, some (.vstr s) =>
        if s ∈ subs ∧ jsGe conf (4/5) = true then some s else none
      | _, _ => none
    ⟨cat, sub, conf, reason, sNC, sNS, altCat⟩

example : (sanitizeSingle (.vobj [("category", .vstr "groceries")]) ["Groceries"] []).category
    = "Other" := by decide
example : (sanitizeSingle (.vobj [("category", .vstr "Groceries"),
    ("subcategory", .vstr "Produce"), ("confidence", .vnum (.num (9/10)))])
    ["Groceries"] [("Groceries", ["Produce"])]).subcategory = some "Produce" := by
  simp [sanitizeSingle, isObjLike, JVal.getField, assocLookup, jsMax, jsMin, jsGe]
  norm_num
example : (sanitizeSingle (.vobj [("confidence", .vnum .nan)]) [] []).confidence
    = .nan := by decide

/-! ## Result Sanitizer, hardened variant (src/unnamed/part_001, `sanitizeSingle`,
lines 697-728): identical to the part_000 variant except for the extra
`provider: obj?.provider || 'model'` field. -/

structure SanOut1 where
  provider : JVal
  category : String
  subcategory : Option String
  confidence : JSNum
  reason : String
  suggestedNewCategory : Option String
  suggestedNewSubcategory : Option String
  alternativeCategory : Option String

/-- `obj?.provider || 'model'` (src/unnamed/part_001 line 700). -/
def providerOf (obj : JVal) : JVal :=
  match obj.getField "provider" with
  | some v => if jsTruthy v then v else .vstr "model"
  | none => .vstr "model"

/-- src/unnamed/part_001 lines 697-728, `sanitizeSingle(obj, categories, subcats)`. -/
def sanitizeSingle1 (obj : JVal) (categories : List String)
    (subcats : List (String × List String)) : SanOut1 :=
  let base := sanitizeSingle obj categories subcats
  ⟨providerOf obj, base.category, base.subcategory, base.confidence, base.reason,
    base.suggestedNewCategory, base.suggestedNewSubcategory, base.alternativeCategory⟩

/-- src/unnamed/part_001 lines 765-771 (and identically lines 819-828):
the `/classify` and `/analyze` POST-RULE (Rule #2).
```
if (clean.category === 'Other' &&
    (clean.suggestedNewCategory || '').toLowerCase() === 'food') {
  clean.category = 'Groceries';
  clean.suggestedNewCategory = null;
  clean.reason = (clean.reason ? clean.reason + ' ' : '') + '(rule 2: ingredient → Groceries)';
}
``` -/
def postRuleFood (clean : SanOut1) : SanOut1 :=
  if clean.category = "Other" ∧ jsLower (clean.suggestedNewCategory.getD "") = "food" then
    { clean with
      category := "Groceries"
      suggestedNewCategory := none
      reason := (if clean.reason ≠ "" then clean.reason ++ " " else "")
        ++ "(rule 2: ingredient → Groceries)" }
  else clean

/-! ## Taxonomy Validator helpers of src/server.js -/

/-- Decimal representation of a natural number (digit recursion; agrees with the
JS number-to-string conversion on naturals). -/
def natDigits : ℕ → List Char
  | 0 => []
  | n + 1 =>
    natDigits ((n + 1) / 10) ++ [Char.ofNat (48 + (n + 1) % 10)]
decreasing_by exact Nat.div_lt_self (Nat.succ_pos n) (by omega)

def natToStr (n : ℕ) : String :=
  if n = 0 then "0" else String.mk (natDigits n)

def intToStr : ℤ → String
  | .ofNat n => natToStr n
  | .negSucc n => "-" ++ natToStr (n + 1)

/-- JS `String(x)` for a number: exact for NaN and integral values; a
non-integral rational is printed as `num/den`, approximating the JS decimal
expansion (no claim depends on this case). -/
def jsNumToStr : JSNum → String
  | .nan => "NaN"
  | .num q => if q.den = 1 then intToStr q.num else intToStr q.num ++ "/" ++ natToStr q.den

/-- JS `String(v)`.  Arrays stringify as the comma-joined conversion of their
elements, plain objects as `[object Object]`.  Numeric strings are exact for
integral values (see `jsNumToStr`). -/
def jsToStr : JVal → String
  | .vnull => "null"
  | .vbool true => "true"
  | .vbool false => "false"
  | .vnum n => jsNumToStr n
  | .vstr s => s
  | .varr xs => String.intercalate "," (xs.attach.map (fun v => jsToStr v.1))
  | .vobj _ => "[object Object]"
decreasing_by
  have := List.sizeOf_lt_of_mem v.2
  simp only [JVal.varr.sizeOf_spec]
  omega

/-- src/server.js lines 62-69:
```
function pickProvidedCategory(modelOut, provided) {
  if (!modelOut || !provided?.length) return null;
  const m = String(modelOut).toLowerCase();
  for (const p of provided) {
    if (String(p).toLowerCase() === m) return p; // keep provided casing
  }
  return null;
}
```
`modelOut` is the raw `out.category` JSON value (`none` = the field was absent). -/
def pickProvidedCategory : Option JVal → List String → Option String
  | none, _ => none
  | some v, provided =>
    if !jsTruthy v ∨ provided = [] then none
    else provided.find? (fun p => jsLower p = jsLower (jsToStr v))

/-- src/server.js lines 71-75:
```
function validateSub(category, sub, subsByCat) {
  if (!sub || !category) return null;
  const list = subsByCat?.[category] || [];
  return list.find((s) => s.toLowerCase() === String(sub).toLowerCase()) || null;
}
```
(`|| null` also maps a found empty string back to null). -/
def orNullJS : Option String → Option String
  | some s => if s = "" then none else some s
  | none => none

def validateSub (category : String) (sub : JVal)
    (subsByCat : List (String × List String)) : Option String :=
  if !jsTruthy sub ∨ category = "" then none
  else
    orNullJS (((assocLookup category subsByCat).getD []).find?
      (fun s => jsLower s = jsLower (jsToStr sub)))

/-- JS number coercion applied by `Math.min`/`Math.max` to a non-number operand
(arrays and non-numeric strings are approximated by NaN; the claims never
exercise these branches). -/
def jsToNum : JVal → JSNum
  | .vnull => .num 0
  | .vbool true => .num 1
  | .vbool false => .num 0
  | .vnum n => n
  | .vstr _ => .nan
  | .varr _ => .nan
  | .vobj _ => .nan

/-- src/server.js line 60: `function clamp(x, lo, hi) { return Math.max(lo, Math.min(hi, x)); }` -/
def clampJS (x lo hi : JSNum) : JSNum := jsMax lo (jsMin hi x)

/-- `out.confidence ?? FALLBACK_CONFIDENCE`: the fallback replaces only a
missing or null field. -/
def confOrFallback (v : Option JVal) (fallback : ℚ) : JSNum :=
  match v with
  | none => .num fallback
  | some .vnull => .num fallback
  | some w => jsToNum w

/-- `x || d` on a JS value: keep `x` when truthy, else `d`. -/
def orElseJS (v : Option JVal) (d : JVal) : JVal :=
  match v with
  | some w => if jsTruthy w then w else d
  | none => d

/-- The sanitized result record built by `classifyWithGemini` in src/server.js,
lines 156-164 (the `classifyWithOpenAI` copy at lines 209-217 is identical up
to the provider tag, passed here as `provider`):
```
const picked = pickProvidedCategory(out.category, cats);
return {
  provider: "gemini",
  category: picked ?? "Other",
  subcategory: validateSub(picked ?? "Other", out.subcategory, subs),
  confidence: clamp(out.confidence ?? FALLBACK_CONFIDENCE, 0, 1),
  reason: out.reason || "",
  suggestedNewCategory: out.suggestedNewCategory || null,
};
``` -/
structure ProviderResult where
  provider : String
  category : String
  subcategory : Option String
  confidence : JSNum
  reason : JVal
  suggestedNewCategory : JVal

def providerSanitize (provider : String) (out : JVal) (cats : List String)
    (subs : List (String × List String)) (fallbackConfidence : ℚ) : ProviderResult :=
  let picked := pickProvidedCategory (out.getField "category") cats
  { provider := provider
    category := picked.getD "Other"
    subcategory := validateSub (picked.getD "Other") (coalesceNull (out.getField "subcategory")) subs
    confidence := clampJS (confOrFallback (out.getField "confidence") fallbackConfidence) (.num 0) (.num 1)
    reason := orElseJS (out.getField "reason") (.vstr "")
    suggestedNewCategory := orElseJS (out.getField "suggestedNewCategory") .vnull }

example : (providerSanitize "gemini"
    (.vobj [("category", .vstr "Groceries"), ("subcategory", .vstr "Produce"),
      ("confidence", .vnum (.num (2/10)))])
    ["Groceries"] [("Groceries", ["Produce"])] (6/10)).subcategory = some "Produce" := by
  simp [providerSanitize, pickProvidedCategory, validateSub, orNullJS, coalesceNull, jsToStr,
    JVal.getField, assocLookup, jsTruthy, jsLower]

/-! ## Tolerant JSON extraction (src/mapper_strict.js lines 3-9)

`JSON.parse` itself is passed in as `parse : String → Option JVal`
(`none` = thrown `SyntaxError`). -/

/-- Index of the first occurrence of `c` in `l`. -/
def firstIdxOf (l : List Char) (c : Char) : Option ℕ :=
  l.findIdx? (fun x => x = c)

/-- Index of the last occurrence of `c` in `l`. -/
def lastIdxOf (l : List Char) (c : Char) : Option ℕ :=
  match l.reverse.findIdx? (fun x => x = c) with
  | some k => some (l.length - 1 - k)
  | none => none

/-- JS `s.slice(i, j)`. -/
def jsSliceFrom (s : String) (i j : ℕ) : String :=
  String.mk ((s.data.take j).drop i)

/-- src/mapper_strict.js lines 3-9:
```
function tryParseJSON(s) {
  if (!s) return null;
  try { return JSON.parse(s); } catch {}
  const i = s.indexOf('{'); const j = s.lastIndexOf('}');
  if (i >= 0 && j > i) { try { return JSON.parse(s.slice(i, j + 1)); } catch {} }
  return null;
}
``` -/
def tryParseJSON (parse : String → Option JVal) (s : String) : Option JVal :=
  if s = "" then none
  else
    match parse s with
    | some v => some v
    | none =>
      match firstIdxOf s.data '\x7b', lastIdxOf s.data '\x7d' with
      | some i, some j => if i < j then parse (jsSliceFrom s i (j + 1)) else none
      | _, _ => none

/-- The guard of src/mapper_strict.js line 13,
`if (!parsed || typeof parsed !== 'object')`, applied to the result of
`tryParseJSON` (true means: fall back). -/
def unusableParse : Option JVal → Bool
  | none => true
  | some v => !jsTruthy v ∨ !jsTypeofObject v

/-! ## Strict single-item mapper (src/mapper_strict.js lines 11-27) -/

structure MapOut where
  provider : String
  category : String
  subcategory : JVal
  confidence : JSNum
  reason : String
  suggestedNewCategory : JVal
  suggestedNewSubcategory : JVal
  alternativeCategory : JVal
  raw : String

/-- The fallback record of src/mapper_strict.js line 14. -/
def mapClassifyFallback (modelText : String) : MapOut :=
  ⟨"model", "Other", .vnull, .num (1/10), "Fallback: unparseable model output",
    .vnull, .vnull, .vnull, modelText⟩

/-- src/mapper_strict.js lines 11-27, `mapClassify(modelText)`. -/
def mapClassify (parse : String → Option JVal) (modelText : String) : MapOut :=
  let parsed := tryParseJSON parse modelText
  if unusableParse parsed then mapClassifyFallback modelText
  else
    let p := parsed.getD .vnull
    { provider := "model"
      category := match p.getField "category" with
        | some (.vstr s) => s
        | _ => "Other"
      subcategory := coalesceNull (p.getField "subcategory")
      confidence := match p.getField "confidence" with
        | some (.vnum n) => n
        | _ => .num (1/2)
      reason := match p.getField "reason" with
        | some (.vstr s) => s
        | _ => ""
      suggestedNewCategory := coalesceNull (p.getField "suggestedNewCategory")
      suggestedNewSubcategory := coalesceNull (p.getField "suggestedNewSubcategory")
      alternativeCategory := coalesceNull (p.getField "alternativeCategory")
      raw := modelText }

/-! ## Strict batch mapper (src/mapper_strict.js lines 29-44) -/

structure AnaItem where
  text : JVal
  category : String
  subcategory : JVal
  confidence : JSNum
  reason : String
  suggestedNewCategory : JVal
  suggestedNewSubcategory : JVal

structure AnaOut where
  provider : String
  items : List AnaItem
  raw : String

/-- The per-line fallback item of src/mapper_strict.js line 32. -/
def anaFallbackItem (t : String) : AnaItem :=
  ⟨.vstr t, "Other", .vnull, .num (1/10), "Fallback: unparseable model output",
    .vnull, .vnull⟩

/-- `lines[idx] ?? it.text ?? ''` of src/mapper_strict.js line 35. -/
def anaItemText (lines : List String) (idx : ℕ) (it : JVal) : JVal :=
  match lines.get? idx with
  | some l => .vstr l
  | none =>
    match it.getField "text" with
    | some .vnull => .vstr ""
    | some v => v
    | none => .vstr ""

/-- src/mapper_strict.js lines 29-44, `mapAnalyze(modelText, lines)`.  When the
parse succeeds and carries an `items` array, the output maps over the MODEL's
items (`parsed.items.map((it, idx) => ...)`), not over the input lines. -/
def mapAnalyze (parse : String → Option JVal) (modelText : String)
    (lines : List String) : AnaOut :=
  let parsed := tryParseJSON parse modelText
  match parsed with
  | some p =>
    if !jsTruthy p ∨ !jsTypeofObject p then
      ⟨"model", lines.map anaFallbackItem, modelText⟩
    else
      match p.getField "items" with
      | some (.varr xs) =>
        ⟨"model",
          xs.mapIdx (fun idx it =>
            { text := anaItemText lines idx it
              category := match it.getField "category" with
                | some (.vstr s) => s
                | _ => "Other"
              subcategory := coalesceNull (it.getField "subcategory")
              confidence := match it.getField "confidence" with
                | some (.vnum n) => n
                | _ => .num (1/2)
              reason := match it.getField "reason" with
                | some (.vstr s) => s
                | _ => ""
              suggestedNewCategory := coalesceNull (it.getField "suggestedNewCategory")
              suggestedNewSubcategory := coalesceNull (it.getField "suggestedNewSubcategory") }),
          modelText⟩
      | _ => ⟨"model", lines.map anaFallbackItem, modelText⟩
  | none => ⟨"model", lines.map anaFallbackItem, modelText⟩

/-! ## Batch assembly of the minimal variant
(src/unnamed/part_000, `/analyze` handler, lines 190-197) -/

structure AnalyzedLine where
  category : String
  subcategory : Option String
  confidence : JSNum
  reason : String
  suggestedNewCategory : Option String
  suggestedNewSubcategory : Option String
  text : String

/-- Attach the echoed line text to a sanitized record, dropping
`alternativeCategory` (`clean.text = line; delete clean.alternativeCategory`). -/
def mkAnalyzedLine (clean : SanOut) (line : String) : AnalyzedLine :=
  ⟨clean.category, clean.subcategory, clean.confidence, clean.reason,
    clean.suggestedNewCategory, clean.suggestedNewSubcategory, line⟩

/-- `Array.isArray(result?.items) ? result.items : []` (src/unnamed/part_000 line 190). -/
def modelItemsOf (result : JVal) : List JVal :=
  match result.getField "items" with
  | some (.varr xs) => xs
  | _ => []

/-- One output item of the part_000 `/analyze` handler: `items[idx] || {}` is
sanitized, the original line text is attached, and `alternativeCategory` is
deleted. -/
def analyzeOneLine (modelItems : List JVal) (cats : List String)
    (subs : List (String × List String)) (idx : ℕ) (line : String) : AnalyzedLine :=
  let r : JVal :=
    match modelItems.get? idx with
    | some v => if jsTruthy v then v else .vobj []
    | none => .vobj []
  mkAnalyzedLine (sanitizeSingle r cats subs) line

/-- src/unnamed/part_000 lines 190-197:
```
let items = Array.isArray(result?.items) ? result.items : [];
items = lines.map((line, idx) => {
  const r = items[idx] || {};
  const clean = sanitizeSingle(r, categories, subcategoriesByCategory);
  clean.text = line;
  delete clean.alternativeCategory;
  return clean;
});
```
where `lines = splitLines(text)`. -/
def analyzeItems (result : JVal) (lines : List String) (cats : List String)
    (subs : List (String × List String)) : List AnalyzedLine :=
  lines.mapIdx (fun idx line => analyzeOneLine (modelItemsOf result) cats subs idx line)

example : (mapAnalyze (fun _ => some (.vobj [("items", .varr [.vobj []])])) "x"
    ["a", "b"]).items.length = 1 := by decide
example : (analyzeItems (.vobj [("items", .varr [.vobj []])]) ["a", "b"] [] []).length
    = 2 := by decide
example : splitLines "  a \n\n- b \r\n" = ["a", "- b"] := by decide

/-! ## TTL cache of the minimal variant (src/unnamed/part_000, class TTLCache,
lines 10-32).  A JS `Map` is embedded as an insertion-ordered association list
with unique keys; `map.keys().next().value` is the first key,
`map.set` updates an existing key in place, timestamps are integers. -/

structure TTLEntry (α : Type) where
  t : ℤ
  v : α
deriving DecidableEq

/-- JS `Map.prototype.delete k` on the entry list. -/
def mapDelete {α : Type} (k : String) (m : List (String × α)) : List (String × α) :=
  m.eraseP (fun p => decide (p.1 = k))

/-- JS `Map.prototype.set k v`: replaces in place when the key exists, else
appends at the end (insertion order). -/
def mapSetJS {α : Type} (k : String) (v : α) : List (String × α) → List (String × α)
  | [] => [(k, v)]
  | (k', v') :: rest => if k' = k then (k, v) :: rest else (k', v') :: mapSetJS k v rest

/-- src/unnamed/part_000 lines 17-22, `TTLCache.get`:
```
get(k) {
  const e = this.map.get(k);
  if (!e) return undefined;
  if (this._now() - e.t > this.ttl) { this.map.delete(k); return undefined; }
  return e.v;
}
```
Returned: the result and the map after the lazy deletion. -/
def ttlGet {α : Type} (ttl : ℤ) (m : List (String × TTLEntry α)) (now : ℤ)
    (k : String) : Option α × List (String × TTLEntry α) :=
  match assocLookup k m with
  | none => (none, m)
  | some e => if now - e.t > ttl then (none, mapDelete k m) else (some e.v, m)

/-- src/unnamed/part_000 lines 23-30, `TTLCache.set`:
```
set(k, v) {
  if (this.map.size >= this.max) {
    const first = this.map.keys().next().value;
    if (first !== undefined) this.map.delete(first);
  }
  this.map.set(k, { v, t: this._now() });
}
``` -/
def ttlSet {α : Type} (maxSize : ℕ) (m : List (String × TTLEntry α)) (now : ℤ)
    (k : String) (v : α) : List (String × TTLEntry α) :=
  let m1 :=
    if m.length ≥ maxSize then
      match m.head? with
      | some (k0, _) => mapDelete k0 m
      | none => m
    else m
  mapSetJS k ⟨now, v⟩ m1

/-! ## Cache of src/server.js (lines 25-57) -/

/-- src/server.js line 26: `const LRU_MAX = 5000;` -/
def LRU_MAX : ℕ := 5000

/-- src/server.js line 27: `const CACHE_TTL_MS = 7 * 24 * 3600 * 1000;` -/
def CACHE_TTL_MS : ℤ := 7 * 24 * 3600 * 1000

/-- src/server.js lines 42-50, `cacheGet(key)`:
```
const hit = CACHE.get(key);
if (!hit) return null;
if (Date.now() - hit.ts > CACHE_TTL_MS) {
  CACHE.delete(key);
  return null;
}
return hit.value;
``` -/
def cacheGet {α : Type} (m : List (String × TTLEntry α)) (now : ℤ)
    (k : String) : Option α × List (String × TTLEntry α) :=
  match assocLookup k m with
  | none => (none, m)
  | some e => if now - e.t > CACHE_TTL_MS then (none, mapDelete k m) else (some e.v, m)

/-- src/server.js lines 51-57, `cacheSet(key, value)`:
```
if (CACHE.size > LRU_MAX) {
  const first = CACHE.keys().next().value;
  if (first) CACHE.delete(first);
}
CACHE.set(key, { ts: Date.now(), value });
```
Note the strict `>` (versus `>=` in TTLCache.set) and the truthiness test
`if (first)`, which skips deletion when the first key is the empty string. -/
def cacheSet {α : Type} (m : List (String × TTLEntry α)) (now : ℤ)
    (k : String) (v : α) : List (String × TTLEntry α) :=
  let m1 :=
    if m.length > LRU_MAX then
      match m.head? with
      | some (k0, _) => if k0 = "" then m else mapDelete k0 m
      | none => m
    else m
  mapSetJS k ⟨now, v⟩ m1

/-! ## Lexicographic string order (the order JS `Array.prototype.sort`
applies to strings; code-unit comparison, ASCII-faithful). -/

def lexLe : List Char → List Char → Bool
  | [], _ => true
  | _ :: _, [] => false
  | a :: as, b :: bs => if a < b then true else if b < a then false else lexLe as bs

def strLe (a b : String) : Bool := lexLe a.data b.data

theorem lexLe_total (a b : List Char) : lexLe a b = true ∨ lexLe b a = true := by
  induction a generalizing b with
  | nil => left; rfl
  | cons x xs ih =>
    cases b with
    | nil => right; rfl
    | cons y ys =>
      rcases lt_trichotomy x y with h | h | h
      · left; simp [lexLe, h]
      · subst h
        rcases ih ys with h' | h' <;> [left; right] <;> simp [lexLe, h', lt_irrefl]
      · right; simp [lexLe, h]

theorem lexLe_trans {a b c : List Char} (hab : lexLe a b = true)
    (hbc : lexLe b c = true) : lexLe a c = true := by
  induction a generalizing b c with
  | nil => rfl
  | cons x xs ih =>
    cases b with
    | nil => simp [lexLe] at hab
    | cons y ys =>
      cases c with
      | nil => simp [lexLe] at hbc
      | cons z zs =>
        simp only [lexLe] at hab hbc ⊢
        by_cases hxy : x < y
        · by_cases hyz : y < z
          · simp [hxy.trans hyz]
          · by_cases hzy : z < y
            · simp [hxy, hyz, hzy] at hbc
            · have : y = z := le_antisymm (not_lt.mp hzy) (not_lt.mp hyz)
              subst this
              simp [hxy]
        · by_cases hyx : y < x
          · simp [hxy, hyx] at hab
          · have : x = y := le_antisymm (not_lt.mp hyx) (not_lt.mp hxy)
            subst this
            simp only [lt_irrefl, if_false] at hab
            by_cases hyz : x < z
            · simp [hyz]
            · by_cases hzy : z < x
              · simp [hyz, hzy, lt_irrefl] at hbc
              · have : x = z := le_antisymm (not_lt.mp hzy) (not_lt.mp hyz)
                subst this
                simp only [lt_irrefl, if_false] at hbc ⊢
                exact ih hab hbc

theorem lexLe_antisymm {a b : List Char} (hab : lexLe a b = true)
    (hba : lexLe b a = true) : a = b := by
  induction a generalizing b with
  | nil =>
    cases b with
    | nil => rfl
    | cons y ys => simp [lexLe] at hba
  | cons x xs ih =>
    cases b with
    | nil => simp [lexLe] at hab
    | cons y ys =>
      simp only [lexLe] at hab hba
      by_cases hxy : x < y
      · simp [hxy, not_lt.mpr hxy.le, lt_irrefl] at hba
      · by_cases hyx : y < x
        · simp [hxy, hyx] at hab
        · have hx : x = y := le_antisymm (not_lt.mp hyx) (not_lt.mp hxy)
          subst hx
          simp only [lt_irrefl, if_false] at hab hba
          rw [ih hab hba]

def strLeRel (a b : String) : Prop := strLe a b = true

instance : DecidableRel strLeRel := fun a b => instDecidableEqBool (strLe a b) true

instance : IsTotal String strLeRel :=
  ⟨fun a b => lexLe_total a.data b.data⟩

instance : IsTrans String strLeRel :=
  ⟨fun _ _ _ hab hbc => lexLe_trans hab hbc⟩

instance : IsAntisymm String strLeRel :=
  ⟨fun a b hab hba => by
    cases a; cases b
    exact congrArg String.mk (lexLe_antisymm hab hba)⟩

/-- JS `arr.sort()` on an array of strings (default comparator: code-unit
lexicographic).  Any sorting algorithm returns the same list for a total
antisymmetric order, so insertion sort is a faithful model. -/
def sortStrings (l : List String) : List String := List.insertionSort strLeRel l

theorem sortStrings_perm_eq {l₁ l₂ : List String} (h : l₁.Perm l₂) :
    sortStrings l₁ = sortStrings l₂ := by
  exact @List.eq_of_perm_of_sorted String strLeRel _ _ _
    (((List.perm_insertionSort strLeRel l₁).trans h).trans
      (List.perm_insertionSort strLeRel l₂).symm)
    (List.sorted_insertionSort strLeRel l₁)
    (List.sorted_insertionSort strLeRel l₂)

/-! ## Cache keys -/

/-- `JSON.stringify` of a string (escaping of special characters is not
modelled; the claims use plain ASCII strings). -/
def jsonQuote (s : String) : String := "\"" ++ s ++ "\""

/-- `JSON.stringify` of an array of strings. -/
def jsonStrList (l : List String) : String :=
  "[" ++ String.intercalate "," (l.map jsonQuote) ++ "]"

/-- `JSON.stringify` of a string-keyed object whose values are arrays of
strings (keys serialized in insertion order). -/
def jsonStrObj (l : List (String × List String)) : String :=
  "\x7b" ++ String.intercalate ","
    (l.map (fun p => jsonQuote p.1 ++ ":" ++ jsonStrList p.2)) ++ "\x7d"

/-- JS `Object.fromEntries`: later duplicate keys overwrite the value at the
first key's position. -/
def fromEntriesJS {α : Type} (l : List (String × α)) : List (String × α) :=
  l.foldl (fun acc p => mapSetJS p.1 p.2 acc) []

/-- src/server.js lines 30-41, `cacheKey({ text, categories, subcategoriesByCat })`:
```
return JSON.stringify({
  t: String(text || "").trim().toLowerCase(),
  c: (categories || []).map((c) => c.toLowerCase()).sort(),
  s: Object.fromEntries(
    Object.entries(subcategoriesByCat || {}).map(([k, v]) => [
      k.toLowerCase(),
      (v || []).map((x) => x.toLowerCase()).sort(),
    ])
  ),
});
``` -/
def cacheKey (text : String) (categories : List String)
    (subcategoriesByCat : List (String × List String)) : String :=
  "\x7b\"t\":" ++ jsonQuote (jsLower (jsTrim text)) ++
  ",\"c\":" ++ jsonStrList (sortStrings (categories.map jsLower)) ++
  ",\"s\":" ++ jsonStrObj (fromEntriesJS (subcategoriesByCat.map
    (fun p => (jsLower p.1, sortStrings (p.2.map jsLower))))) ++ "\x7d"

/-- src/unnamed/part_000 line 64: `const normalizeKey = s => String(s || '').trim().toLowerCase();` -/
def normalizeKey (s : String) : String := jsLower (jsTrim s)

/-- src/unnamed/part_000 line 167, the `/classify` handler's cache key:
`const key = 'c:' + normalizeKey(raw) + '|' + JSON.stringify(categories || []);`
(the category array is serialized verbatim: neither sorted nor lowercased,
and the subcategory map is not part of the key at all). -/
def classifyKey000 (raw : String) (categories : List String) : String :=
  "c:" ++ normalizeKey raw ++ "|" ++ jsonStrList categories

example : cacheKey " X " ["A", "B"] [] = cacheKey "x" ["b", "a"] [] := by decide
example : classifyKey000 "x" ["A", "B"] ≠ classifyKey000 "x" ["b", "a"] := by decide

/-! # Claim theorems -/

/-- C4: when a provider's raw text cannot be interpreted as JSON — first by a
direct parse, then by parsing the substring between the first brace and the
last brace (exactly the procedure `tryParseJSON` performs) — the single-item
mapping path `mapClassify` does not fail but returns the pre-defined fallback
result, whose category is "Other", subcategory null, confidence 0.1, and whose
reason indicates unparseable model output. -/
theorem mapClassify_unparseable_fallback (parse : String → Option JVal) (s : String)
    (h : tryParseJSON parse s = none) :
    mapClassify parse s = mapClassifyFallback s ∧
    (mapClassifyFallback s).category = "Other" ∧
    (mapClassifyFallback s).subcategory = .vnull ∧
    (mapClassifyFallback s).confidence = .num (1/10) ∧
    (mapClassifyFallback s).reason = "Fallback: unparseable model output" := by
  refine ⟨?_, rfl, rfl, rfl, rfl⟩
  simp [mapClassify, h, unusableParse]

theorem mapClassify_unparseable_fallback_witness :
    tryParseJSON (fun _ => none) "not json at all" = none ∧
    mapClassify (fun _ => none) "not json at all"
      = mapClassifyFallback "not json at all" :=
  ⟨rfl, (mapClassify_unparseable_fallback (fun _ => none) "not json at all" rfl).1⟩

/-- C7: for every key, neither `TTLCache.get` (src/unnamed/part_000) nor
`cacheGet` (src/server.js) ever returns an entry whose age exceeds the TTL,
even if the entry is still physically present in the map; an expired entry is
lazily deleted on lookup and the lookup reports a miss. -/
theorem cache_get_ttl {α : Type} (ttl now : ℤ) (m : List (String × TTLEntry α))
    (k : String) :
    (∀ v m', ttlGet ttl m now k = (some v, m') →
      ∃ e, assocLookup k m = some e ∧ now - e.t ≤ ttl ∧ v = e.v ∧ m' = m) ∧
    (∀ e, assocLookup k m = some e → now - e.t > ttl →
      ttlGet ttl m now k = (none, mapDelete k m)) ∧
    (∀ v m', cacheGet m now k = (some v, m') →
      ∃ e, assocLookup k m = some e ∧ now - e.t ≤ CACHE_TTL_MS ∧ v = e.v ∧ m' = m) ∧
    (∀ e, assocLookup k m = some e → now - e.t > CACHE_TTL_MS →
      cacheGet m now k = (none, mapDelete k m)) := by
  refine ⟨?_, ?_, ?_, ?_⟩
  · intro v m' h
    unfold ttlGet at h
    cases hm : assocLookup k m with
    | none => rw [hm] at h; simp at h
    | some e =>
      rw [hm] at h
      by_cases hc : now - e.t > ttl
      · simp [hc] at h
      · simp [hc] at h
        exact ⟨e, rfl, not_lt.mp hc, h.1.symm, h.2.symm⟩
  · intro e hm hc
    unfold ttlGet
    rw [hm]
    simp [hc]
  · intro v m' h
    unfold cacheGet at h
    cases hm : assocLookup k m with
    | none => rw [hm] at h; simp at h
    | some e =>
      rw [hm] at h
      by_cases hc : now - e.t > CACHE_TTL_MS
      · simp [hc] at h
      · simp [hc] at h
        exact ⟨e, rfl, not_lt.mp hc, h.1.symm, h.2.symm⟩
  · intro e hm hc
    unfold cacheGet
    rw [hm]
    simp [hc]

theorem cache_get_ttl_witness :
    ttlGet 10 [("k", ⟨0, (42 : ℕ)⟩)] 20 "k" = (none, mapDelete "k" [("k", ⟨0, 42⟩)]) :=
  (cache_get_ttl 10 20 [("k", ⟨0, 42⟩)] "k").2.1 ⟨0, 42⟩ rfl (by decide)

/-- C10: if the raw model output's confidence field is the floating-point value
NaN, the numeric type guard `typeof confidence === 'number'` of `sanitizeSingle`
accepts it and `Math.max(0, Math.min(1, NaN))` propagates NaN, so the returned
confidence is NaN rather than a value in [0,1]; the subcategory threshold
comparison `out.confidence >= 0.8` against NaN is false, so the subcategory is
still forced to null. -/
theorem sanitizeSingle_nan_confidence (obj : JVal) (cats : List String)
    (subs : List (String × List String))
    (h : obj.getField "confidence" = some (.vnum .nan)) :
    (sanitizeSingle obj cats subs).confidence = .nan ∧
    ¬ inRange01 (sanitizeSingle obj cats subs).confidence ∧
    (sanitizeSingle obj cats subs).subcategory = none := by
  have hobj : isObjLike obj = true := by
    cases obj <;> first | rfl | simp [JVal.getField] at h
  unfold sanitizeSingle
  rw [hobj]
  simp only [Bool.not_true, Bool.false_eq_true, if_false, h, jsMin, jsMax]
  refine ⟨trivial, fun hr => hr, ?_⟩
  split
  · rename_i heq
    simp [jsGe] at heq ⊢
  · rfl

theorem sanitizeSingle_nan_confidence_witness :
    (JVal.vobj [("confidence", .vnum .nan)]).getField "confidence"
        = some (.vnum .nan) ∧
    (sanitizeSingle (.vobj [("confidence", .vnum .nan)]) ["Groceries"]
        [("Groceries", ["Produce"])]).confidence = .nan :=
  ⟨rfl, (sanitizeSingle_nan_confidence (.vobj [("confidence", .vnum .nan)])
    ["Groceries"] [("Groceries", ["Produce"])] rfl).1⟩

/-- C9: in the hardened server variant (src/unnamed/part_001), whenever the
sanitized result has category "Other" and a suggestedNewCategory equal to
"food" ignoring case, the POST-RULE rewrites the category to the literal
string "Groceries" and clears suggestedNewCategory to null — even when
"Groceries" is not a member of the caller-supplied categories, so the category
returned at the public interfaces can fall outside the supplied taxonomy. -/
theorem postRuleFood_rewrites_category (obj : JVal) (cats : List String)
    (subs : List (String × List String))
    (h1 : (sanitizeSingle1 obj cats subs).category = "Other")
    (h2 : jsLower ((sanitizeSingle1 obj cats subs).suggestedNewCategory.getD "") = "food") :
    (postRuleFood (sanitizeSingle1 obj cats subs)).category = "Groceries" ∧
    (postRuleFood (sanitizeSingle1 obj cats subs)).suggestedNewCategory = none ∧
    ("Groceries" ∉ cats → (postRuleFood (sanitizeSingle1 obj cats subs)).category ∉ cats) := by
  unfold postRuleFood
  rw [if_pos ⟨h1, h2⟩]
  exact ⟨rfl, rfl, fun hn => by simpa using hn⟩

theorem postRuleFood_rewrites_category_witness :
    (postRuleFood (sanitizeSingle1 (.vobj [("suggestedNewCategory", .vstr "Food")])
      ["To-do", "Other"] [])).category = "Groceries" ∧
    (postRuleFood (sanitizeSingle1 (.vobj [("suggestedNewCategory", .vstr "Food")])
      ["To-do", "Other"] [])).category ∉ (["To-do", "Other"] : List String) :=
  have h := postRuleFood_rewrites_category (.vobj [("suggestedNewCategory", .vstr "Food")])
    ["To-do", "Other"] [] (by decide) (by decide)
  ⟨h.1, h.2.2 (by decide)⟩

/-- C1, counterexample: `sanitizeSingle` matches the raw category against the
supplied categories with `Set.has`, i.e. by exact, case-SENSITIVE equality.
At the concrete input where the model returned "groceries" and the caller
supplied ["Groceries"], a case-insensitive member exists (the claim therefore
predicts the canonicalized output "Groceries"), but the code returns the
fallback "Other", which is not a member of the supplied list. -/
theorem sanitizeSingle_case_insensitive_refuted :
    (sanitizeSingle (.vobj [("category", .vstr "groceries")]) ["Groceries"] []).category
      = "Other" ∧
    jsLower "groceries" = jsLower "Groceries" ∧
    "Other" ≠ "Groceries" ∧
    "Other" ∉ (["Groceries"] : List String) := by decide

/-- C1, amended: `sanitizeSingle` accepts the raw category only on an exact,
case-sensitive match with a supplied category (so no canonicalization is ever
needed), and otherwise — including when the category list is empty — outputs
the fallback category "Other"; the `pickProvidedCategory` helper of
src/server.js, by contrast, does match case-insensitively and returns the
member in the caller's original casing (and returns null on an empty list). -/
theorem sanitize_category_membership :
    (∀ obj cats subs, (sanitizeSingle obj cats subs).category ∈ cats ∨
      (sanitizeSingle obj cats subs).category = "Other") ∧
    (∀ obj cats subs s, obj.getField "category" = some (.vstr s) → s ∈ cats →
      (sanitizeSingle obj cats subs).category = s) ∧
    (∀ v cats p, pickProvidedCategory (some v) cats = some p →
      p ∈ cats ∧ jsLower p = jsLower (jsToStr v)) ∧
    (∀ mo, pickProvidedCategory mo [] = none) := by
  refine ⟨?_, ?_, ?_, ?_⟩
  · intro obj cats subs
    unfold sanitizeSingle
    by_cases hobj : isObjLike obj
    · rw [hobj]
      simp only [Bool.not_true, Bool.false_eq_true, if_false]
      cases hf : obj.getField "category" with
      | none => right; rfl
      | some v =>
        cases v with
        | vstr s =>
          by_cases hs : s ∈ cats
          · left
            simp only [hf, if_pos hs]
            exact hs
          · right; simp [hf, hs]
        | vnull => right; rfl
        | vbool b => right; rfl
        | vnum n => right; rfl
        | varr xs => right; rfl
        | vobj fs => right; rfl
    · rw [Bool.not_eq_true] at hobj
      rw [hobj]
      right; rfl
  · intro obj cats subs s hf hs
    have hobj : isObjLike obj = true := by
      cases obj <;> first | rfl | simp [JVal.getField] at hf
    unfold sanitizeSingle
    rw [hobj]
    simp [hf, hs]
  · intro v cats p h
    simp only [pickProvidedCategory] at h
    by_cases hc : !jsTruthy v ∨ cats = []
    · rw [if_pos hc] at h; exact absurd h (by simp)
    · rw [if_neg hc] at h
      have hx := List.find?_some (p := fun x => decide (jsLower x = jsLower (jsToStr v))) h
      exact ⟨List.mem_of_find?_eq_some h, of_decide_eq_true hx⟩
  · intro mo
    cases mo with
    | none => rfl
    | some v => simp [pickProvidedCategory]

theorem sanitize_category_membership_witness :
    (sanitizeSingle (.vobj [("category", .vstr "Groceries")]) ["Groceries"] []).category
      = "Groceries" :=
  sanitize_category_membership.2.1 (.vobj [("category", .vstr "Groceries")])
    ["Groceries"] [] "Groceries" rfl (by decide)

/-- C2, counterexample: the subcategory/confidence coupling does not hold on
the src/server.js path.  `classifyWithGemini` (lines 156-164) sets
`subcategory: validateSub(...)` with no confidence condition at all, so at the
concrete model output {category:"Groceries", subcategory:"Produce",
confidence:0.2} with "Produce" listed under "Groceries", the returned record
has a non-null subcategory while its confidence 0.2 is below the 0.8
threshold — contradicting the claim that for every sanitized result the
subcategory is non-null only when confidence ≥ 0.8. -/
theorem provider_subcategory_threshold_refuted :
    (providerSanitize "gemini"
      (.vobj [("category", .vstr "Groceries"), ("subcategory", .vstr "Produce"),
        ("confidence", .vnum (.num (2/10)))])
      ["Groceries"] [("Groceries", ["Produce"])] (6/10)).subcategory
        = some "Produce" ∧
    (providerSanitize "gemini"
      (.vobj [("category", .vstr "Groceries"), ("subcategory", .vstr "Produce"),
        ("confidence", .vnum (.num (2/10)))])
      ["Groceries"] [("Groceries", ["Produce"])] (6/10)).confidence
        = .num (2/10) ∧
    ¬ ((4/5 : ℚ) ≤ 2/10) := by
  refine ⟨?_, ?_, by norm_num⟩
  · simp [providerSanitize, pickProvidedCategory, validateSub, orNullJS, coalesceNull, jsToStr,
      JVal.getField, assocLookup, jsTruthy, jsLower]
  · simp [providerSanitize, clampJS, confOrFallback, jsToNum, JVal.getField, assocLookup,
      jsMin, jsMax]
    norm_num

/-- A found `validateSub` result is listed under the category in the
subcategory map and matches the candidate case-insensitively. -/
theorem validateSub_mem {cat : String} {sub : JVal}
    {sm : List (String × List String)} {s : String}
    (h : validateSub cat sub sm = some s) :
    s ∈ (assocLookup cat sm).getD [] ∧ jsLower s = jsLower (jsToStr sub) := by
  simp only [validateSub] at h
  by_cases hc : !jsTruthy sub ∨ cat = ""
  · rw [if_pos hc] at h; exact absurd h (by simp)
  · rw [if_neg hc] at h
    cases hf : List.find? (fun x => decide (jsLower x = jsLower (jsToStr sub)))
        ((assocLookup cat sm).getD []) with
    | none => rw [hf] at h; exact absurd h (by simp [orNullJS])
    | some s' =>
      rw [hf] at h
      simp only [orNullJS] at h
      by_cases hs' : s' = ""
      · rw [if_pos hs'] at h; exact absurd h (by simp)
      · rw [if_neg hs'] at h
        cases h
        have hx := List.find?_some
          (p := fun x => decide (jsLower x = jsLower (jsToStr sub))) hf
        exact ⟨List.mem_of_find?_eq_some hf, of_decide_eq_true hx⟩

/-- C2, amended: `sanitizeSingle` (used by the part_000 and part_001 variants)
does enforce the claim: its output subcategory is non-null only if the output
confidence is at least 0.8 and the value is listed under the chosen category in
the subcategory map.  `validateSub` of src/server.js enforces only the
membership half (case-insensitively, returning the listed casing), and the
provider-result records built in src/server.js apply no confidence threshold to
the subcategory at all. -/
theorem subcategory_validity :
    (∀ obj cats subs s, (sanitizeSingle obj cats subs).subcategory = some s →
      jsGe (sanitizeSingle obj cats subs).confidence (4/5) = true ∧
      ∃ l, assocLookup (sanitizeSingle obj cats subs).category subs = some l ∧ s ∈ l) ∧
    (∀ cat sub sm s, validateSub cat sub sm = some s →
      s ∈ (assocLookup cat sm).getD [] ∧ jsLower s = jsLower (jsToStr sub)) ∧
    (∀ prov out cats subs f s,
      (providerSanitize prov out cats subs f).subcategory = some s →
      s ∈ (assocLookup (providerSanitize prov out cats subs f).category subs).getD []) := by
  refine ⟨?_, fun cat sub sm s h => validateSub_mem h, ?_⟩
  · intro obj cats subs s h
    by_cases hobj : isObjLike obj
    · unfold sanitizeSingle at h ⊢
      rw [hobj] at h ⊢
      simp only [Bool.not_true, Bool.false_eq_true, if_false] at h ⊢
      revert h
      split
      · rename_i subs' s' hl hv
        intro h
        split at h
        · rename_i hcond
          cases h
          exact ⟨hcond.2, subs', hl, hcond.1⟩
        · exact absurd h (by simp)
      · intro h
        exact absurd h (by simp)
    · unfold sanitizeSingle at h
      rw [Bool.not_eq_true] at hobj
      rw [hobj] at h
      simp [sanDefault] at h
  · intro prov out cats subs f s h
    have hv : validateSub ((pickProvidedCategory (out.getField "category") cats).getD "Other")
        (coalesceNull (out.getField "subcategory")) subs = some s := h
    have hc : (providerSanitize prov out cats subs f).category
        = (pickProvidedCategory (out.getField "category") cats).getD "Other" := rfl
    rw [hc]
    exact (validateSub_mem hv).1

theorem subcategory_validity_witness :
    (sanitizeSingle (.vobj [("category", .vstr "Groceries"),
        ("subcategory", .vstr "Produce"), ("confidence", .vnum (.num (9/10)))])
      ["Groceries"] [("Groceries", ["Produce"])]).subcategory = some "Produce" ∧
    jsGe (sanitizeSingle (.vobj [("category", .vstr "Groceries"),
        ("subcategory", .vstr "Produce"), ("confidence", .vnum (.num (9/10)))])
      ["Groceries"] [("Groceries", ["Produce"])]).confidence (4/5) = true :=
  have hsub : (sanitizeSingle (.vobj [("category", .vstr "Groceries"),
      ("subcategory", .vstr "Produce"), ("confidence", .vnum (.num (9/10)))])
      ["Groceries"] [("Groceries", ["Produce"])]).subcategory = some "Produce" := by
    simp [sanitizeSingle, isObjLike, JVal.getField, assocLookup, jsMax, jsMin, jsGe]
    norm_num
  ⟨hsub, (subcategory_validity.1 (.vobj [("category", .vstr "Groceries"),
      ("subcategory", .vstr "Produce"), ("confidence", .vnum (.num (9/10)))])
    ["Groceries"] [("Groceries", ["Produce"])] "Produce" hsub).1⟩

/-- C3, counterexample: two concrete sanitizer inputs contradict the claim.
With the confidence field absent, `sanitizeSingle` returns confidence 0 (its
initialised default), not a configured fallback in the claimed 0.5-0.6 band;
with the confidence field NaN, the returned confidence is NaN, which does not
lie in [0,1]. -/
theorem confidence_range_refuted :
    (sanitizeSingle (.vobj []) ["Groceries"] []).confidence = .num 0 ∧
    ¬ ((1/2 : ℚ) ≤ 0) ∧
    (sanitizeSingle (.vobj [("confidence", .vnum .nan)]) ["Groceries"] []).confidence
      = .nan ∧
    ¬ inRange01 JSNum.nan := by
  refine ⟨rfl, by norm_num, rfl, fun hr => hr⟩

/-- C3, amended: if the raw confidence field is a (non-NaN) number,
`sanitizeSingle` clamps it to [0,1] and the output confidence lies in [0,1];
if it is missing or not a number, the output confidence is 0 (not a 0.5-0.6
fallback — that default lives in `mapClassify`, which returns 0.5 for a
missing/non-numeric confidence, and in src/server.js's FALLBACK_CONFIDENCE);
if it is NaN, NaN propagates and the output confidence lies outside [0,1]. -/
theorem confidence_clamping :
    (∀ obj cats subs q, obj.getField "confidence" = some (.vnum (.num q)) →
      (sanitizeSingle obj cats subs).confidence = .num (max 0 (min 1 q)) ∧
      inRange01 (.num (max 0 (min 1 q)))) ∧
    (∀ obj cats subs, isObjLike obj = true →
      (∀ n, obj.getField "confidence" ≠ some (.vnum n)) →
      (sanitizeSingle obj cats subs).confidence = .num 0) ∧
    (∀ obj cats subs, obj.getField "confidence" = some (.vnum .nan) →
      (sanitizeSingle obj cats subs).confidence = .nan ∧
      ¬ inRange01 (sanitizeSingle obj cats subs).confidence) ∧
    (∀ parse s p, tryParseJSON parse s = some p → unusableParse (some p) = false →
      (∀ n, p.getField "confidence" ≠ some (.vnum n)) →
      (mapClassify parse s).confidence = .num (1/2)) := by
  refine ⟨?_, ?_, ?_, ?_⟩
  · intro obj cats subs q h
    have hobj : isObjLike obj = true := by
      cases obj <;> first | rfl | simp [JVal.getField] at h
    constructor
    · unfold sanitizeSingle
      rw [hobj]
      simp [h, jsMin, jsMax]
    · exact ⟨le_max_left 0 _, max_le zero_le_one (min_le_left 1 q)⟩
  · intro obj cats subs hobj h
    unfold sanitizeSingle
    rw [hobj]
    simp only [Bool.not_true, Bool.false_eq_true, if_false]
  · intro obj cats subs h
    have hobj : isObjLike obj = true := by
      cases obj <;> first | rfl | simp [JVal.getField] at h
    have hc : (sanitizeSingle obj cats subs).confidence = .nan := by
      unfold sanitizeSingle
      rw [hobj]
      simp [h, jsMin, jsMax]
    exact ⟨hc, by rw [hc]; exact fun hr => hr⟩
  · intro parse s p hp hu h
    unfold mapClassify
    rw [hp]
    simp only [hu, Bool.false_eq_true, if_false, Option.getD_some]

theorem confidence_clamping_witness :
    (sanitizeSingle (.vobj [("confidence", .vnum (.num (3/2)))]) ["Groceries"] []).confidence
      = .num (max 0 (min 1 (3/2))) ∧ inRange01 (.num (max 0 (min 1 (3/2 : ℚ)))) :=
  confidence_clamping.1 (.vobj [("confidence", .vnum (.num (3/2)))]) ["Groceries"] []
    (3/2) rfl

/-- C5, counterexample: `mapAnalyze` of src/mapper_strict.js maps over the
MODEL's items array, not over the input lines.  At the concrete input with two
non-empty lines and a model output that parses to an object whose items array
has a single element, the returned items list has length 1, not 2, and no
fallback backfill happens — contradicting "exactly one result per non-empty
trimmed input line".  (The parse argument is the parse of that very model
response.) -/
theorem mapAnalyze_length_refuted :
    (mapAnalyze (fun _ => some (.vobj [("items", .varr [.vobj []])]))
      "\x7b\"items\":[\x7b\x7d]\x7d" ["a", "b"]).items.length = 1 ∧
    (["a", "b"] : List String).length = 2 ∧ (1 : ℕ) ≠ 2 :=
  ⟨rfl, rfl, by decide⟩

/-- C5, amended: the part_000 `/analyze` assembly does satisfy the claim: its
output has exactly one result per non-empty trimmed input line, result i is
built from input line i and model item i regardless of order (positional, not
content-based), and a position missing from the model output is backfilled
with the all-defaults sanitized record.  The strict mapper `mapAnalyze`
guarantees one result per line only on its unparseable-fallback path; when the
model output parses with an items array it returns one result per MODEL item
(echoing line i's text into item i when available), so dropped or added model
lines change the output length. -/
theorem batch_positional_alignment :
    (∀ result lines cats subs,
      (analyzeItems result lines cats subs).length = lines.length) ∧
    (∀ result lines cats subs (i : ℕ),
      (analyzeItems result lines cats subs)[i]?
        = (lines[i]?).map (analyzeOneLine (modelItemsOf result) cats subs i)) ∧
    (∀ modelItems cats subs idx line, modelItems.get? idx = none →
      analyzeOneLine modelItems cats subs idx line
        = mkAnalyzedLine (sanitizeSingle (.vobj []) cats subs) line) ∧
    (∀ parse s lines, tryParseJSON parse s = none →
      (mapAnalyze parse s lines).items.length = lines.length) ∧
    (∀ parse s lines p xs, tryParseJSON parse s = some p →
      jsTruthy p = true → jsTypeofObject p = true →
      p.getField "items" = some (.varr xs) →
      (mapAnalyze parse s lines).items.length = xs.length) := by
  refine ⟨?_, ?_, ?_, ?_, ?_⟩
  · intro result lines cats subs
    simp [analyzeItems]
  · intro result lines cats subs i
    simp [analyzeItems, List.getElem?_mapIdx]
  · intro modelItems cats subs idx line h
    unfold analyzeOneLine
    rw [h]
  · intro parse s lines h
    simp [mapAnalyze, h]
  · intro parse s lines p xs hp ht hto hi
    simp [mapAnalyze, hp, ht, hto, hi]

theorem batch_positional_alignment_witness :
    (mapAnalyze (fun _ => some (.vobj [("items", .varr [.vobj [], .vobj [], .vobj []])]))
      "y" ["x"]).items.length = 3 :=
  batch_positional_alignment.2.2.2.2
    (fun _ => some (.vobj [("items", .varr [.vobj [], .vobj [], .vobj []])]))
    "y" ["x"] (.vobj [("items", .varr [.vobj [], .vobj [], .vobj []])])
    [.vobj [], .vobj [], .vobj []] rfl rfl rfl rfl

/-- C6, counterexample: the part_000 `/classify` cache key serializes the
category array verbatim — neither sorted nor lowercased — so the two requests
with categories ["A","B"] and ["b","a"] (the same semantic set: their
lowercasings are permutations of each other) produce different keys,
contradicting the claim that such requests produce the same cache key. -/
theorem classifyKey000_order_refuted :
    ((["A", "B"] : List String).map jsLower).Perm (["b", "a"].map jsLower) ∧
    classifyKey000 "x" ["A", "B"] ≠ classifyKey000 "x" ["b", "a"] := by
  constructor
  · decide
  · decide

/-- Pointwise-aligned subcategory maps canonicalize identically. -/
theorem mapped_subcats_eq {s1 s2 : List (String × List String)}
    (h : List.Forall₂ (fun p q => jsLower p.1 = jsLower q.1 ∧
      (p.2.map jsLower).Perm (q.2.map jsLower)) s1 s2) :
    s1.map (fun p => (jsLower p.1, sortStrings (p.2.map jsLower)))
      = s2.map (fun p => (jsLower p.1, sortStrings (p.2.map jsLower))) := by
  induction h with
  | nil => rfl
  | cons hpq _ ih =>
    simp only [List.map_cons, ih, List.cons.injEq, and_true]
    exact Prod.ext hpq.1 (sortStrings_perm_eq hpq.2)

/-- C6, amended: the src/server.js `cacheKey` is invariant as claimed: under
surrounding whitespace and letter case of the text, under permutation and
letter case of the category list, and under letter case of each subcategory
map key and permutation/letter case of each per-category subcategory list.
The part_000 `/classify` key is invariant only in its text component
(trim + lowercase); it changes under reordering or re-casing of the category
array. -/
theorem cacheKey_canonicalization :
    (∀ t1 t2 c1 c2 s1 s2,
      jsLower (jsTrim t1) = jsLower (jsTrim t2) →
      (c1.map jsLower).Perm (c2.map jsLower) →
      List.Forall₂ (fun p q => jsLower p.1 = jsLower q.1 ∧
        (p.2.map jsLower).Perm (q.2.map jsLower)) s1 s2 →
      cacheKey t1 c1 s1 = cacheKey t2 c2 s2) ∧
    (∀ r1 r2 c, normalizeKey r1 = normalizeKey r2 →
      classifyKey000 r1 c = classifyKey000 r2 c) := by
  constructor
  · intro t1 t2 c1 c2 s1 s2 ht hc hs
    unfold cacheKey
    rw [ht, sortStrings_perm_eq hc, mapped_subcats_eq hs]
  · intro r1 r2 c h
    unfold classifyKey000
    rw [h]

theorem cacheKey_canonicalization_witness :
    cacheKey " Milk " ["A", "B"] [("Groceries", ["Dairy", "Veg"])]
      = cacheKey "milk" ["b", "a"] [("GROCERIES", ["veg", "DAIRY"])] :=
  cacheKey_canonicalization.1 " Milk " "milk" ["A", "B"] ["b", "a"]
    [("Groceries", ["Dairy", "Veg"])] [("GROCERIES", ["veg", "DAIRY"])]
    (by decide) (by decide)
    (List.Forall₂.cons ⟨by decide, by decide⟩ List.Forall₂.nil)

/-! ## Capacity behaviour of the two caches (C8) -/

theorem assocLookup_none_of_not_mem {α : Type} {k : String}
    {m : List (String × α)} (h : k ∉ m.map Prod.fst) : assocLookup k m = none := by
  induction m with
  | nil => rfl
  | cons p rest ih =>
    simp only [List.map_cons, List.mem_cons, not_or] at h
    unfold assocLookup
    rw [if_neg (fun he => h.1 he.symm)]
    exact ih h.2

/-- `Map.set` with a fresh key appends at the end. -/
theorem mapSetJS_fresh {α : Type} {k : String} {m : List (String × α)} (v : α)
    (h : assocLookup k m = none) : mapSetJS k v m = m ++ [(k, v)] := by
  induction m with
  | nil => rfl
  | cons p rest ih =>
    obtain ⟨k', v'⟩ := p
    unfold assocLookup at h
    by_cases hk : k' = k
    · rw [if_pos hk] at h; exact absurd h (by simp)
    · rw [if_neg hk] at h
      unfold mapSetJS
      rw [if_neg hk, ih h]
      exact (List.cons_append _ _ _).symm

theorem mapSetJS_length_le {α : Type} (k : String) (v : α) (m : List (String × α)) :
    (mapSetJS k v m).length ≤ m.length + 1 := by
  induction m with
  | nil => simp [mapSetJS]
  | cons p rest ih =>
    obtain ⟨k', v'⟩ := p
    unfold mapSetJS
    by_cases hk : k' = k
    · rw [if_pos hk]; simp
    · rw [if_neg hk]
      simpa using ih

theorem mapDelete_cons_self {α : Type} (k : String) (e : α)
    (rest : List (String × α)) : mapDelete k ((k, e) :: rest) = rest := by
  unfold mapDelete
  exact List.eraseP_cons_of_pos (by simp)

/-- The part_000 `/classify`-style fill: a sequence of `cacheSet` calls
(src/server.js) with the given keys, all at time 0 with value 0. -/
def applyCacheSets (m : List (String × TTLEntry ℕ)) (ks : List String) :
    List (String × TTLEntry ℕ) :=
  ks.foldl (fun acc k => cacheSet acc 0 k 0) m

theorem applyCacheSets_fresh : ∀ (ks : List String) (m : List (String × TTLEntry ℕ)),
    ks.Nodup → (∀ k ∈ ks, k ∉ m.map Prod.fst) →
    m.length + ks.length ≤ LRU_MAX + 1 →
    (applyCacheSets m ks).length = m.length + ks.length := by
  intro ks
  induction ks with
  | nil => intro m _ _ _; simp [applyCacheSets]
  | cons k rest ih =>
    intro m hnd hfresh hlen
    have hmlen : m.length ≤ LRU_MAX := by
      simp only [List.length_cons] at hlen; omega
    have hk : assocLookup k m = none :=
      assocLookup_none_of_not_mem (hfresh k (by simp))
    have hstep : cacheSet m 0 k (0 : ℕ) = m ++ [(k, ⟨0, 0⟩)] := by
      unfold cacheSet
      rw [if_neg (by omega)]
      exact mapSetJS_fresh _ hk
    have hfold : applyCacheSets m (k :: rest) = applyCacheSets (m ++ [(k, ⟨0, 0⟩)]) rest := by
      unfold applyCacheSets
      rw [List.foldl_cons, hstep]
    rw [hfold]
    have hfresh' : ∀ k' ∈ rest, k' ∉ (m ++ [(k, (⟨0, 0⟩ : TTLEntry ℕ))]).map Prod.fst := by
      intro k' hk' hmem
      simp only [List.map_append, List.mem_append, List.map_cons, List.map_nil,
        List.mem_singleton] at hmem
      rcases hmem with hmem | hmem
      · exact hfresh k' (by simp [hk']) hmem
      · rw [hmem] at hk'
        exact (List.nodup_cons.mp hnd).1 hk'
    have hlen' : (m ++ [(k, (⟨0, 0⟩ : TTLEntry ℕ))]).length + rest.length ≤ LRU_MAX + 1 := by
      simp only [List.length_append, List.length_cons, List.length_nil] at hlen ⊢
      omega
    have := ih (m ++ [(k, ⟨0, 0⟩)]) (List.nodup_cons.mp hnd).2 hfresh' hlen'
    rw [this]
    simp only [List.length_append, List.length_cons, List.length_nil]
    omega

/-- The 5001 pairwise-distinct non-empty keys used to overfill the cache. -/
def cxKeys : List String :=
  (List.range (LRU_MAX + 1)).map (fun i => String.mk (List.replicate (i + 1) 'a'))

theorem cxKeys_nodup : cxKeys.Nodup := by
  refine List.Nodup.map ?_ (List.nodup_range _)
  intro a b h
  simp only at h
  injection h with h'
  have := congrArg List.length h'
  simpa using this

/-- C8, counterexample: src/server.js's `cacheSet` evicts only when the map
size is strictly GREATER than LRU_MAX (5000), so a sequence of 5001 `set`
calls with distinct fresh keys starting from the empty cache leaves 5001
entries — one more than the claimed maximum of 5000. -/
theorem cacheSet_capacity_refuted :
    (applyCacheSets [] cxKeys).length = LRU_MAX + 1 ∧ LRU_MAX + 1 > LRU_MAX := by
  have hlen : cxKeys.length = LRU_MAX + 1 := by
    simp only [cxKeys, List.length_map, List.length_range]
  constructor
  · have h := applyCacheSets_fresh cxKeys [] cxKeys_nodup (by simp) (by simp [hlen])
    rw [h, hlen]
    simp
  · omega

/-- C8, amended: the part_000 `TTLCache.set` (which evicts at `size >= max`)
does keep the cache at or below its fixed maximum, evicting the single
oldest-inserted (first) entry when at capacity — insertion-order FIFO, since
`Map.set` on an existing key keeps its position and eviction always removes
the first key.  The src/server.js `cacheSet`, however, evicts only when
`size > LRU_MAX`, so its cache is bounded by LRU_MAX + 1 = 5001 entries (and
the eviction is additionally skipped when the oldest key is the empty string),
not by the claimed 5000. -/
theorem cache_capacity_bound :
    (∀ {α : Type} (maxSize : ℕ) (m : List (String × TTLEntry α)) (now : ℤ)
      (k : String) (v : α), 1 ≤ maxSize → m.length ≤ maxSize →
      (ttlSet maxSize m now k v).length ≤ maxSize) ∧
    (∀ {α : Type} (m : List (String × TTLEntry α)) (now : ℤ) (k : String) (v : α),
      m.length ≤ LRU_MAX + 1 → (∀ p ∈ m, p.1 ≠ "") →
      (cacheSet m now k v).length ≤ LRU_MAX + 1) ∧
    (∀ {α : Type} (maxSize : ℕ) (m : List (String × TTLEntry α)) (now : ℤ)
      (k : String) (v : α) (e : String × TTLEntry α) (rest : List (String × TTLEntry α)),
      m = e :: rest → m.length ≥ maxSize →
      ttlSet maxSize m now k v = mapSetJS k ⟨now, v⟩ rest) := by
  refine ⟨?_, ?_, ?_⟩
  · intro α maxSize m now k v hmax hlen
    unfold ttlSet
    by_cases hc : m.length ≥ maxSize
    · rw [if_pos hc]
      cases m with
      | nil => simp at hc; omega
      | cons e rest =>
        obtain ⟨k0, e0⟩ := e
        simp only [List.head?_cons]
        rw [mapDelete_cons_self]
        have h1 := mapSetJS_length_le k (⟨now, v⟩ : TTLEntry α) rest
        have h2 : rest.length + 1 ≤ maxSize := by
          simpa using hlen
        omega
    · rw [if_neg hc]
      show (mapSetJS k ⟨now, v⟩ m).length ≤ maxSize
      have h1 := mapSetJS_length_le k (⟨now, v⟩ : TTLEntry α) m
      omega
  · intro α m now k v hlen hne
    unfold cacheSet
    by_cases hc : m.length > LRU_MAX
    · rw [if_pos hc]
      cases m with
      | nil => simp at hc
      | cons e rest =>
        obtain ⟨k0, e0⟩ := e
        simp only [List.head?_cons]
        rw [if_neg (hne (k0, e0) (by simp))]
        rw [mapDelete_cons_self]
        have h1 := mapSetJS_length_le k (⟨now, v⟩ : TTLEntry α) rest
        have h2 : rest.length + 1 ≤ LRU_MAX + 1 := by
          simpa using hlen
        omega
    · rw [if_neg hc]
      show (mapSetJS k ⟨now, v⟩ m).length ≤ LRU_MAX + 1
      have h1 := mapSetJS_length_le k (⟨now, v⟩ : TTLEntry α) m
      omega
  · intro α maxSize m now k v e rest hm hge
    subst hm
    obtain ⟨k0, e0⟩ := e
    unfold ttlSet
    rw [if_pos hge]
    simp only [List.head?_cons]
    rw [mapDelete_cons_self]

theorem cache_capacity_bound_witness :
    (ttlSet 2 [("a", ⟨0, (0 : ℕ)⟩)] 0 "b" 0).length ≤ 2 :=
  cache_capacity_bound.1 2 [("a", ⟨0, 0⟩)] 0 "b" 0 (by decide) (by decide)
